import Mathlib

/-
Verification of the return-calculation engine of the property-investment
analysis application (streamlit_app.py).

Modelling conventions:
* Calendar dates (ISO date strings in the code) are modelled as day numbers
  (integers); a difference of day numbers is the day count of the Python
  timedelta.  The evaluation instant datetime.now() is modelled by its day
  number `today`.
* Python floats are modelled as rationals; Python round (round half to even
  on the decimal value) is modelled by pyRound.
* The external Yahoo-Finance quote source is an oracle: for historical data
  a function from a currency pair and a requested date window to the list of
  valid (date, close-price) samples the source returns (null entries of the
  response, which the code skips, are omitted; a transport failure is an
  empty response); for live data a function from a currency pair to an
  optional current price.
* The float `**` operator applied to a non-integer exponent is modelled by
  an uninterpreted function parameter fpow; every branch of the code that
  avoids `**` is independent of it.
* Fallible code returns Except/Option: a raised-and-caught ValueError in
  calculate_returns (which the code surfaces with st.error and a None
  return) is an Except.error carrying the data of the message; a Python
  ZeroDivisionError is modelled as Option.none.
* The in-place payments.sort(...) side effect is modelled by state passing:
  calculate_returns returns the post-call payments list alongside its result.
-/

namespace PropInvest

/-- Currency codes of SUPPORTED_CURRENCIES. -/
inductive Ccy
  | USD | EUR | GBP | INR | AED
deriving DecidableEq

/-- A payment record of the payments list: date (day number), amount, and
the amount_currency key; the key is optional because calculate_returns
reads it with payment.get, defaulting to the investment currency. -/
structure Payment where
  date : ℤ
  amount : ℚ
  amount_currency : Option Ccy
deriving DecidableEq

/-- Oracle for the historical quote source: currency pair and requested
window (start date, end date) to the list of valid (date, close) samples. -/
def HistSource : Type := Ccy → Ccy → ℤ → ℤ → List (ℤ × ℚ)

/-- Oracle for the live quote source: currency pair to optional price. -/
def LiveSource : Type := Ccy → Ccy → Option ℚ

/-- Uninterpreted model of the float power operator base ** exponent. -/
def PowFn : Type := ℚ → ℚ → ℚ

/-- fetch_live_exchange_rate: 1.0 for a currency against itself, otherwise
the (possibly absent) price the live source returns. -/
def fetch_live_exchange_rate (live : LiveSource) (from_currency to_currency : Ccy) :
    Option ℚ :=
  if from_currency = to_currency then some 1
  else live from_currency to_currency

/-- Python `x or default` for an optional float x: default when x is None
or 0.0 (falsy), otherwise x. -/
def pythonOr (x : Option ℚ) (dflt : ℚ) : ℚ :=
  match x with
  | none => dflt
  | some r => if r = 0 then dflt else r

/-- get_current_exchange_rate: 1.0 for a currency against itself, otherwise
fetch_live_exchange_rate(...) or 1.0. -/
def get_current_exchange_rate (live : LiveSource) (from_currency to_currency : Ccy) : ℚ :=
  if from_currency = to_currency then 1
  else pythonOr (fetch_live_exchange_rate live from_currency to_currency) 1

/-- Absolute day distance from a sample to the target date. -/
def dayDiff (target : ℤ) (s : ℤ × ℚ) : ℤ := |s.1 - target|

/-- The closest-date selection loop of fetch_historical_exchange_rate: the
code keeps the smallest day distance seen so far (initially infinity) and
updates only on a strictly smaller distance; we carry the winning sample
(whose distance is the code's closest_date_diff). -/
def closestFold (target : ℤ) : Option (ℤ × ℚ) → List (ℤ × ℚ) → Option (ℤ × ℚ)
  | best, [] => best
  | none, s :: rest => closestFold target (some s) rest
  | some b, s :: rest =>
      if dayDiff target s < dayDiff target b then closestFold target (some s) rest
      else closestFold target (some b) rest

/-- closest_rate produced by the selection loop over a window of samples. -/
def selectClosest (target : ℤ) (samples : List (ℤ × ℚ)) : Option ℚ :=
  (closestFold target none samples).map (fun s => s.2)

/-- fetch_historical_exchange_rate: 1.0 for a currency against itself;
otherwise the nearest-date selection over the samples of the plus/minus 5
day window, then over the plus/minus 30 day window, and None if both fail.
It never consults the live source (its type has no live-source input). -/
def fetch_historical_exchange_rate (src : HistSource)
    (from_currency to_currency : Ccy) (date : ℤ) : Option ℚ :=
  if from_currency = to_currency then some 1
  else
    match selectClosest date (src from_currency to_currency (date - 5) (date + 5)) with
    | some r => some r
    | none => selectClosest date (src from_currency to_currency (date - 30) (date + 30))

/-- Data of the ValueError message raised by get_exchange_rate (currency
pair and payment date of the unresolvable historical request). -/
structure RateError where
  from_currency : Ccy
  to_currency : Ccy
  date : ℤ
deriving DecidableEq

/-- get_exchange_rate: historical rate for a specific date; raises (error)
when no historical data is available, never proceeding with a current
rate. -/
def get_exchange_rate (src : HistSource) (date : ℤ)
    (from_currency to_currency : Ccy) : Except RateError ℚ :=
  if from_currency = to_currency then .ok 1
  else
    match fetch_historical_exchange_rate src from_currency to_currency date with
    | none => .error ⟨from_currency, to_currency, date⟩
    | some r => .ok r

/-- Round half to even to an integer (Python round on the exact value). -/
def roundHalfEven (q : ℚ) : ℤ :=
  let f := ⌊q⌋
  if q - f < 1 / 2 then f
  else if 1 / 2 < q - f then f + 1
  else if f % 2 = 0 then f else f + 1

/-- Python round(q, ndigits). -/
def pyRound (ndigits : ℕ) (q : ℚ) : ℚ :=
  (roundHalfEven (q * 10 ^ ndigits) : ℚ) / 10 ^ ndigits

/-- The unrounded per-payment quantities computed inside the loop of
calculate_returns (the values the totals accumulate from). -/
structure RawResult where
  date : ℤ
  amount : ℚ
  amount_currency : Ccy
  amount_in_investment_currency : ℚ
  amount_in_property_currency : ℚ
  investment_date_rate : ℚ
  years : ℚ
  future_value_investment_currency : ℚ
  future_value_property_currency : ℚ
  pure_future_value : ℚ
  pure_interest_earned_investment_currency : ℚ
  pure_interest_earned_property_currency : ℚ
  currency_impact : ℚ
deriving DecidableEq

/-- The per-payment dictionary appended to the results list (rounded). -/
structure PerPaymentResult where
  date : ℤ
  amount : ℚ
  amount_currency : Ccy
  amount_in_investment_currency : ℚ
  amount_in_property_currency : ℚ
  investment_date_rate : ℚ
  years : ℚ
  future_value_investment_currency : ℚ
  future_value_property_currency : ℚ
  pure_interest_earned_investment_currency : ℚ
  pure_interest_earned_property_currency : ℚ
  currency_impact : ℚ
deriving DecidableEq

/-- Rounding applied when the per-payment dictionary is built: monetary
values to 2 decimal places, the rate to 4, years to 2. -/
def roundedOf (r : RawResult) : PerPaymentResult where
  date := r.date
  amount := r.amount
  amount_currency := r.amount_currency
  amount_in_investment_currency := pyRound 2 r.amount_in_investment_currency
  amount_in_property_currency := pyRound 2 r.amount_in_property_currency
  investment_date_rate := pyRound 4 r.investment_date_rate
  years := pyRound 2 r.years
  future_value_investment_currency := pyRound 2 r.future_value_investment_currency
  future_value_property_currency := pyRound 2 r.future_value_property_currency
  pure_interest_earned_investment_currency := pyRound 2 r.pure_interest_earned_investment_currency
  pure_interest_earned_property_currency := pyRound 2 r.pure_interest_earned_property_currency
  currency_impact := pyRound 2 r.currency_impact

/-- Conversion of the payment amount into the investment currency (first
try block of the loop): a historical lookup only when the payment currency
differs from the investment currency. -/
def convertToInvestment (src : HistSource) (investment_currency : Ccy)
    (p : Payment) : Except RateError ℚ :=
  let payment_currency := p.amount_currency.getD investment_currency
  if payment_currency ≠ investment_currency then
    (get_exchange_rate src p.date payment_currency investment_currency).map
      (fun conversion_rate => p.amount * conversion_rate)
  else .ok p.amount

/-- Conversion into the property currency (second try block): when the
payment currency already equals the property currency the raw amount passes
through at rate 1.0 with no lookup; otherwise the investment-currency
amount is converted at the historical investment-date rate.  Returns the
pair (amount_in_property_currency, investment_date_rate). -/
def convertToProperty (src : HistSource) (investment_currency property_currency : Ccy)
    (p : Payment) (amount_in_investment_currency : ℚ) : Except RateError (ℚ × ℚ) :=
  let payment_currency := p.amount_currency.getD investment_currency
  if payment_currency = property_currency then .ok (p.amount, 1)
  else
    (get_exchange_rate src p.date investment_currency property_currency).map
      (fun investment_date_rate =>
        (amount_in_investment_currency * investment_date_rate, investment_date_rate))

/-- One iteration of the calculate_returns loop for a single payment. -/
def processPayment (src : HistSource) (live : LiveSource) (fpow : PowFn)
    (desired_return : ℚ) (investment_currency property_currency : Ccy)
    (today : ℤ) (p : Payment) : Except RateError RawResult :=
  match convertToInvestment src investment_currency p with
  | .error e => .error e
  | .ok amount_in_investment_currency =>
    match convertToProperty src investment_currency property_currency p
        amount_in_investment_currency with
    | .error e => .error e
    | .ok (amount_in_property_currency, investment_date_rate) =>
      let years : ℚ := ((today - p.date : ℤ) : ℚ) / (365.25 : ℚ)
      let future_value_property_currency :=
        if 0 < years then
          amount_in_property_currency * fpow (1 + desired_return / 100) years
        else amount_in_property_currency
      let current_rate :=
        get_current_exchange_rate live property_currency investment_currency
      let future_value_investment_currency :=
        future_value_property_currency * current_rate
      let pure_future_value :=
        if 0 < years then
          amount_in_investment_currency * fpow (1 + desired_return / 100) years
        else amount_in_investment_currency
      let pure_interest_earned :=
        if 0 < years then pure_future_value - amount_in_investment_currency else 0
      let currency_impact := future_value_investment_currency - pure_future_value
      .ok
        { date := p.date
          amount := p.amount
          amount_currency := p.amount_currency.getD investment_currency
          amount_in_investment_currency := amount_in_investment_currency
          amount_in_property_currency := amount_in_property_currency
          investment_date_rate := investment_date_rate
          years := years
          future_value_investment_currency := future_value_investment_currency
          future_value_property_currency := future_value_property_currency
          pure_future_value := pure_future_value
          pure_interest_earned_investment_currency := pure_interest_earned
          pure_interest_earned_property_currency := pure_interest_earned * current_rate
          currency_impact := currency_impact }

/-- The loop of calculate_returns over the (sorted) payments: the first
unresolvable historical rate aborts the batch with its error and no
per-payment results. -/
def rawResults (src : HistSource) (live : LiveSource) (fpow : PowFn)
    (desired_return : ℚ) (investment_currency property_currency : Ccy)
    (today : ℤ) : List Payment → Except RateError (List RawResult)
  | [] => .ok []
  | p :: rest =>
    match processPayment src live fpow desired_return investment_currency
        property_currency today p with
    | .error e => .error e
    | .ok r =>
      match rawResults src live fpow desired_return investment_currency
          property_currency today rest with
      | .error e => .error e
      | .ok rs => .ok (r :: rs)

/-- The summary dictionary of calculate_returns. -/
structure Summary where
  total_invested_investment_currency : ℚ
  total_invested_property_currency : ℚ
  total_future_value_investment_currency : ℚ
  total_future_value_property_currency : ℚ
  total_pure_interest : ℚ
  total_currency_impact : ℚ
  multiplying_factor_investment : ℚ
  multiplying_factor_property : ℚ
  simple_roi : ℚ
  time_weighted_roi : ℚ
  pure_roi : ℚ
  average_investment_time : ℚ
  overall_return_rate_investment : ℚ
  overall_return_rate_property : ℚ
deriving DecidableEq

/-- Summary construction: the invested and future-value totals are the
running sums of the first loop (unrounded values); the second loop runs
over the rounded results list, so weighted time, total weight, total pure
interest and total currency impact accumulate the rounded fields. -/
def mkSummary (fpow : PowFn) (raws : List RawResult) : Summary :=
  let results := raws.map roundedOf
  let total_invested_investment_currency :=
    (raws.map (fun r => r.amount_in_investment_currency)).sum
  let total_invested_property_currency :=
    (raws.map (fun r => r.amount_in_property_currency)).sum
  let total_future_value_property_currency :=
    (raws.map (fun r => r.future_value_property_currency)).sum
  let total_future_value_investment_currency :=
    (raws.map (fun r => r.future_value_investment_currency)).sum
  let weighted_time :=
    (results.map (fun r => r.amount_in_investment_currency * r.years)).sum
  let total_weight :=
    (results.map (fun r => r.amount_in_investment_currency)).sum
  let total_pure_interest :=
    (results.map (fun r => r.pure_interest_earned_investment_currency)).sum
  let total_currency_impact :=
    (results.map (fun r => r.currency_impact)).sum
  let average_investment_time :=
    if 0 < total_weight then weighted_time / total_weight else 0
  let simple_roi :=
    if 0 < total_invested_investment_currency then
      (total_future_value_investment_currency - total_invested_investment_currency) /
        total_invested_investment_currency * 100
    else 0
  let time_weighted_roi :=
    if 0 < total_invested_investment_currency then
      if 0 < average_investment_time then
        (fpow (total_future_value_investment_currency / total_invested_investment_currency)
            (1 / average_investment_time) - 1) * 100
      else 0
    else 0
  let pure_roi :=
    if 0 < total_invested_investment_currency then
      total_pure_interest / total_invested_investment_currency * 100
    else 0
  { total_invested_investment_currency := total_invested_investment_currency
    total_invested_property_currency := total_invested_property_currency
    total_future_value_investment_currency := total_future_value_investment_currency
    total_future_value_property_currency := total_future_value_property_currency
    total_pure_interest := total_pure_interest
    total_currency_impact := total_currency_impact
    multiplying_factor_investment :=
      if 0 < total_invested_investment_currency then
        total_future_value_investment_currency / total_invested_investment_currency
      else 0
    multiplying_factor_property :=
      if 0 < total_invested_property_currency then
        total_future_value_property_currency / total_invested_property_currency
      else 0
    simple_roi := simple_roi
    time_weighted_roi := time_weighted_roi
    pure_roi := pure_roi
    average_investment_time := average_investment_time
    overall_return_rate_investment := pure_roi
    overall_return_rate_property := pure_roi }

/-- Return value of a successful calculate_returns call. -/
structure CalcOutput where
  results : List PerPaymentResult
  summary : Summary
deriving DecidableEq

/-- The ways calculate_returns comes back with None: an empty payments list,
or an unresolvable historical rate (surfaced through st.error). -/
inductive CalcFailure
  | noPayments
  | rateUnavailable (e : RateError)
deriving DecidableEq

instance : DecidableRel (fun a b : Payment => a.date ≤ b.date) :=
  fun a b => Int.decLe a.date b.date

/-- payments.sort(key=date): Python sorts stably by the parsed date; any
stable sort on the date key produces the same list, modelled by insertion
sort. -/
def sortPayments (payments : List Payment) : List Payment :=
  payments.insertionSort (fun a b => a.date ≤ b.date)

/-- calculate_returns.  The first component is the caller's payments list
after the call (reordered in place by payments.sort); the second is the
outcome: None for an empty list or an unresolved historical rate, otherwise
the results list and summary. -/
def calculate_returns (src : HistSource) (live : LiveSource) (fpow : PowFn)
    (payments : List Payment) (desired_return : ℚ)
    (investment_currency property_currency : Ccy) (today : ℤ) :
    List Payment × Except CalcFailure CalcOutput :=
  if payments = [] then (payments, .error .noPayments)
  else
    let sorted := sortPayments payments
    match rawResults src live fpow desired_return investment_currency
        property_currency today sorted with
    | .error e => (sorted, .error (.rateUnavailable e))
    | .ok raws =>
      (sorted, .ok { results := raws.map roundedOf, summary := mkSummary fpow raws })

/-- The reverse-calculation block (selling amount, house amount and the
summary's invested total and average time). -/
structure ReverseOutput where
  property_appreciation : ℚ
  house_value_portion : ℚ
  your_investment_percentage : ℚ
  your_share_of_house : ℚ
  your_total_return : ℚ
  potential_return : ℚ
  selling_roi : ℚ
  selling_time_weighted_roi : ℚ
  annualized_return : ℚ
deriving DecidableEq

/-- The reverse calculation: none models the ZeroDivisionError Python
raises at total_invested_property / initial_house_amount when the house
amount is zero (the UI widget's minimum of 0.01 keeps it positive). -/
def reverseCalc (fpow : PowFn)
    (initial_house_amount total_invested_property selling_amount
      average_investment_time : ℚ) : Option ReverseOutput :=
  if initial_house_amount = 0 then none
  else
    let property_appreciation :=
      if initial_house_amount ≤ selling_amount then
        selling_amount - initial_house_amount
      else 0
    let house_value_portion :=
      if initial_house_amount ≤ selling_amount then initial_house_amount
      else selling_amount
    let your_investment_percentage :=
      min (total_invested_property / initial_house_amount) 1
    let your_share_of_house := house_value_portion * your_investment_percentage
    let your_total_return := your_share_of_house + property_appreciation
    let potential_return := your_total_return - total_invested_property
    let selling_roi :=
      if 0 < total_invested_property then
        (your_total_return / total_invested_property - 1) * 100
      else 0
    let selling_time_weighted_roi :=
      if 0 < total_invested_property then
        if 0 < average_investment_time then
          (fpow (your_total_return / total_invested_property)
              (1 / average_investment_time) - 1) * 100
        else 0
      else 0
    let annualized_return :=
      if 0 < total_invested_property then
        if 0 < average_investment_time then selling_roi / average_investment_time
        else 0
      else 0
    some
      { property_appreciation := property_appreciation
        house_value_portion := house_value_portion
        your_investment_percentage := your_investment_percentage
        your_share_of_house := your_share_of_house
        your_total_return := your_total_return
        potential_return := potential_return
        selling_roi := selling_roi
        selling_time_weighted_roi := selling_time_weighted_roi
        annualized_return := annualized_return }

/-- break_even_amount of the break-even scenario panel:
total_invested_property / your_investment_percentage when the percentage is
positive, else 0; none models the ZeroDivisionError of the percentage when
the house amount is zero. -/
def breakEvenAmount (initial_house_amount total_invested_property : ℚ) : Option ℚ :=
  if initial_house_amount = 0 then none
  else
    let your_investment_percentage :=
      min (total_invested_property / initial_house_amount) 1
    some
      (if 0 < your_investment_percentage then
        total_invested_property / your_investment_percentage
      else 0)

/-! Concrete fixtures used by the closed evaluation theorems: a historical
source with a single sample, a live source quoting 1, constant models of the
float power operator, and concrete payments. -/

/-- Historical source answering every window with one sample: rate 2 quoted
on day 1461. -/
def cHist : HistSource := fun _ _ _ _ => [(1461, 2)]

/-- Historical source with no data at all. -/
def cHistEmpty : HistSource := fun _ _ _ _ => []

/-- Historical source with no data in a 10-day window and a single sample 12
days after the target day 0 in the 60-day window. -/
def csrc : HistSource := fun _ _ lo hi => if hi - lo = 60 then [(12, 5 / 4)] else []

/-- Live source quoting 1 for every pair. -/
def cLive : LiveSource := fun _ _ => some 1

/-- Power model returning 0 (used where the power operator is dead code). -/
def cPow0 : PowFn := fun _ _ => 0

/-- Power model returning 1.001 (a growth factor with a sub-cent effect on
an amount of 1). -/
def cPow1 : PowFn := fun _ _ => 1001 / 1000

/-- A payment of 100 USD dated on day 1461 (four years after day 0). -/
def cPay : Payment := ⟨1461, 100, some Ccy.USD⟩

/-- A payment of 1 USD dated on day 0. -/
def cPay0 : Payment := ⟨0, 1, some Ccy.USD⟩

/-- A payment of 100 EUR dated on day 0. -/
def cPayF : Payment := ⟨0, 100, some Ccy.EUR⟩

/-- The unrounded values calculate_returns computes for cPay evaluated at
day 0 (four years before the payment) with rate 8, USD investment currency,
EUR property currency, cHist and cLive. -/
def cRawFut : RawResult :=
  ⟨1461, 100, Ccy.USD, 100, 200, 2, -4, 200, 200, 100, 0, 0, 100⟩

/-- The unrounded values calculate_returns computes for cPay0 evaluated at
day 1461 with rate 8, USD throughout, under the cPow1 power model. -/
def cRawPast : RawResult :=
  ⟨0, 1, Ccy.USD, 1, 1, 1, 4, 1001 / 1000, 1001 / 1000, 1001 / 1000, 1 / 1000, 1 / 1000, 0⟩

/-- Two payments in descending date order. -/
def cPays2 : List Payment := [⟨10, 5, some Ccy.USD⟩, ⟨3, 7, some Ccy.USD⟩]

/-- C6: for every calendar date and currency C, the historical rate of C
against itself is 1.0 and the live rate of C against itself is 1.0, and in
both cases the result is the same under any quote-source oracle (no query
is issued); the wrappers get_exchange_rate and get_current_exchange_rate
agree. -/
theorem same_currency_rate_is_one (src src2 : HistSource) (live live2 : LiveSource)
    (c : Ccy) (d : ℤ) :
    fetch_historical_exchange_rate src c c d = some 1 ∧
    fetch_live_exchange_rate live c c = some 1 ∧
    fetch_historical_exchange_rate src c c d = fetch_historical_exchange_rate src2 c c d ∧
    fetch_live_exchange_rate live c c = fetch_live_exchange_rate live2 c c ∧
    get_exchange_rate src d c c = .ok 1 ∧
    get_current_exchange_rate live c c = 1 := by
  simp [fetch_historical_exchange_rate, fetch_live_exchange_rate, get_exchange_rate,
    get_current_exchange_rate]

/-- C7: the reverse calculation computes the ownership fraction as the
capped invested share, splits appreciation and base share on whether the
selling amount reaches the initial house amount, credits the full
appreciation on top of the owned share, and reports the scenario ROI; the
cited 1,000,000 / 500,000 / 1,200,000 instance yields appreciation 200,000,
share 500,000, total return 700,000 and ROI 40. -/
theorem reverse_scenario_formulas (fpow : PowFn) (i t s a : ℚ) (hi : i ≠ 0) :
    ∃ o, reverseCalc fpow i t s a = some o ∧
      o.your_investment_percentage = min (t / i) 1 ∧
      o.property_appreciation = (if i ≤ s then s - i else 0) ∧
      o.house_value_portion = (if i ≤ s then i else s) ∧
      o.your_share_of_house = (if i ≤ s then i else s) * min (t / i) 1 ∧
      o.your_total_return =
        (if i ≤ s then i else s) * min (t / i) 1 + (if i ≤ s then s - i else 0) ∧
      (0 < t → o.selling_roi = (o.your_total_return / t - 1) * 100) ∧
      (i = 1000000 → t = 500000 → s = 1200000 →
        o.property_appreciation = 200000 ∧ o.your_share_of_house = 500000 ∧
        o.your_total_return = 700000 ∧ o.selling_roi = 40) := by
  simp only [reverseCalc, if_neg hi]
  refine ⟨_, rfl, rfl, rfl, rfl, rfl, rfl, fun ht => by rw [if_pos ht], ?_⟩
  rintro rfl rfl rfl
  norm_num [min_def]

/-- C7 witness: the instance of the claim at the cited concrete scenario. -/
theorem reverse_scenario_formulas_witness :
    (1000000 : ℚ) ≠ 0 ∧
    ∃ o, reverseCalc cPow0 1000000 500000 1200000 2 = some o ∧
      o.property_appreciation = 200000 ∧ o.your_share_of_house = 500000 ∧
      o.your_total_return = 700000 ∧ o.selling_roi = 40 := by
  have hi : (1000000 : ℚ) ≠ 0 := by norm_num
  obtain ⟨o, ho, -, -, -, -, -, -, hinst⟩ :=
    reverse_scenario_formulas cPow0 1000000 500000 1200000 2 hi
  obtain ⟨h1, h2, h3, h4⟩ := hinst rfl rfl rfl
  exact ⟨hi, o, ho, h1, h2, h3, h4⟩

/-- C8: break_even_amount is total_invested_property divided by the
ownership fraction when that fraction is positive (else 0), and running the
reverse scenario at exactly that selling amount returns the invested total
with a scenario ROI of zero. -/
theorem break_even_sale_price_roi_zero (fpow : PowFn) (i t a : ℚ) (hi : i ≠ 0) :
    (¬ 0 < min (t / i) 1 → breakEvenAmount i t = some 0) ∧
    (0 < min (t / i) 1 →
      breakEvenAmount i t = some (t / min (t / i) 1) ∧
      ∃ o, reverseCalc fpow i t (t / min (t / i) 1) a = some o ∧
        o.your_total_return = t ∧ o.selling_roi = 0) := by
  constructor
  · intro h
    simp only [breakEvenAmount, if_neg hi, if_neg h]
  · intro hpos
    have hti : 0 < t / i := (lt_min_iff.mp hpos).1
    have ht0 : t ≠ 0 := by
      intro h0
      rw [h0, zero_div] at hti
      exact lt_irrefl 0 hti
    refine ⟨by simp only [breakEvenAmount, if_neg hi, if_pos hpos], ?_⟩
    simp only [reverseCalc, if_neg hi]
    have hytr :
        (if i ≤ t / min (t / i) 1 then i else t / min (t / i) 1) * min (t / i) 1 +
          (if i ≤ t / min (t / i) 1 then t / min (t / i) 1 - i else 0) = t := by
      rcases le_or_lt (t / i) 1 with hle | hgt
      · rw [min_eq_left hle]
        have hsi : t / (t / i) = i := by
          rw [div_div_eq_mul_div, mul_comm, mul_div_assoc, div_self ht0, mul_one]
        rw [hsi]
        simp only [le_refl, if_true, sub_self, add_zero]
        rw [mul_comm]
        exact div_mul_cancel₀ t hi
      · rw [min_eq_right hgt.le, div_one]
        rcases hi.lt_or_lt with hneg | hposI
        · have htlt : t < i := by
            have h2 : i * (t / i) < i * 1 := mul_lt_mul_of_neg_left hgt hneg
            rwa [mul_one, mul_comm, div_mul_cancel₀ t hi] at h2
          simp only [if_neg (not_le.mpr htlt), mul_one, add_zero]
        · have hit : i ≤ t := le_of_lt ((one_lt_div hposI).mp hgt)
          simp only [if_pos hit, mul_one]
          ring
    refine ⟨_, rfl, hytr, ?_⟩
    rcases lt_or_le 0 t with h | h
    · rw [if_pos h, hytr, div_self ht0]
      norm_num
    · rw [if_neg (not_lt.mpr h)]

/-- C8 witness: the break-even price for a 1,000,000 house with 500,000
invested is 1,000,000, and selling there returns exactly the invested
500,000 at ROI 0. -/
theorem break_even_sale_price_roi_zero_witness :
    (1000000 : ℚ) ≠ 0 ∧ (0 : ℚ) < min ((500000 : ℚ) / 1000000) 1 ∧
    breakEvenAmount 1000000 500000 = some (500000 / min ((500000 : ℚ) / 1000000) 1) ∧
    ∃ o, reverseCalc cPow0 1000000 500000 (500000 / min ((500000 : ℚ) / 1000000) 1) 2 =
        some o ∧ o.your_total_return = 500000 ∧ o.selling_roi = 0 := by
  have hi : (1000000 : ℚ) ≠ 0 := by norm_num
  have hpos : (0 : ℚ) < min ((500000 : ℚ) / 1000000) 1 := by norm_num [min_def]
  have h := (break_even_sale_price_roi_zero cPow0 1000000 500000 2 hi).2 hpos
  exact ⟨hi, hpos, h.1, h.2⟩

/-- C9 (amended): a zero house amount makes the reverse calculation divide
by zero (modelled as none) instead of returning neutral metrics; for a
non-positive invested total (house amount nonzero) the three ROI figures
are zeroed but the ownership fraction and total return are computed from
the raw negative values unchanged. -/
theorem reverse_degenerate_inputs (fpow : PowFn) (i t s a : ℚ) :
    (i = 0 → reverseCalc fpow i t s a = none) ∧
    (i ≠ 0 → t ≤ 0 → ∃ o, reverseCalc fpow i t s a = some o ∧
      o.selling_roi = 0 ∧ o.selling_time_weighted_roi = 0 ∧ o.annualized_return = 0 ∧
      o.your_investment_percentage = min (t / i) 1 ∧
      o.your_total_return =
        (if i ≤ s then i else s) * min (t / i) 1 + (if i ≤ s then s - i else 0)) := by
  constructor
  · intro h
    simp [reverseCalc, h]
  · intro hi ht
    have hnt : ¬ 0 < t := not_lt.mpr ht
    simp only [reverseCalc, if_neg hi]
    exact ⟨_, rfl, if_neg hnt, if_neg hnt, if_neg hnt, rfl, rfl⟩

/-- C9 counterexample: at initial_house_amount = 0 the reverse calculation
divides by zero (no zeroed metrics, modelled none), and at a negative
invested total the reported total return is -300,000, not a neutral
value. -/
theorem reverse_degenerate_inputs_cex :
    reverseCalc cPow0 0 500000 1200000 2 = none ∧
    (reverseCalc cPow0 1000000 (-500000) 1200000 2).map
      (fun o => (o.your_total_return, o.selling_roi)) = some (-300000, 0) ∧
    ¬((-300000 : ℚ) = 0) := by
  refine ⟨rfl, ?_, by norm_num⟩
  norm_num [reverseCalc, min_def]

/-- C9 witness: the amended statement evaluated at concrete degenerate
inputs. -/
theorem reverse_degenerate_inputs_witness :
    ((0 : ℚ) = 0 ∧ reverseCalc cPow0 0 500000 1200000 2 = none) ∧
    ((1000000 : ℚ) ≠ 0 ∧ (-500000 : ℚ) ≤ 0 ∧
      ∃ o, reverseCalc cPow0 1000000 (-500000) 1200000 2 = some o ∧
        o.selling_roi = 0 ∧
        o.your_investment_percentage = min ((-500000 : ℚ) / 1000000) 1) := by
  refine ⟨⟨rfl, (reverse_degenerate_inputs cPow0 0 500000 1200000 2).1 rfl⟩, ?_⟩
  have hi : (1000000 : ℚ) ≠ 0 := by norm_num
  have ht : (-500000 : ℚ) ≤ 0 := by norm_num
  obtain ⟨o, ho, h1, -, -, h4, -⟩ :=
    (reverse_degenerate_inputs cPow0 1000000 (-500000) 1200000 2).2 hi ht
  exact ⟨hi, ht, o, ho, h1, h4⟩

/-- A live source that always fails resolves every current rate to 1. -/
lemma get_current_exchange_rate_none (f t : Ccy) :
    get_current_exchange_rate (fun _ _ => none) f t = 1 := by
  by_cases h : f = t <;>
    simp [get_current_exchange_rate, fetch_live_exchange_rate, pythonOr, h]

/-- A live source that always quotes 1 resolves every current rate to 1. -/
lemma get_current_exchange_rate_one (f t : Ccy) :
    get_current_exchange_rate (fun _ _ => some 1) f t = 1 := by
  by_cases h : f = t <;>
    simp [get_current_exchange_rate, fetch_live_exchange_rate, pythonOr, h]

/-- processPayment depends on the live source only through the resolved
current rate. -/
lemma processPayment_live_congr (src : HistSource) (live1 live2 : LiveSource)
    (fpow : PowFn) (desired_return : ℚ) (ic pc : Ccy) (today : ℤ) (p : Payment)
    (h : get_current_exchange_rate live1 pc ic = get_current_exchange_rate live2 pc ic) :
    processPayment src live1 fpow desired_return ic pc today p =
      processPayment src live2 fpow desired_return ic pc today p := by
  unfold processPayment
  simp only [h]

/-- The loop of calculate_returns under two live sources resolving the same
current rates. -/
lemma rawResults_live_congr (src : HistSource) (live1 live2 : LiveSource)
    (fpow : PowFn) (desired_return : ℚ) (ic pc : Ccy) (today : ℤ)
    (h : get_current_exchange_rate live1 pc ic = get_current_exchange_rate live2 pc ic)
    (l : List Payment) :
    rawResults src live1 fpow desired_return ic pc today l =
      rawResults src live2 fpow desired_return ic pc today l := by
  induction l with
  | nil => rfl
  | cons p rest ih =>
    simp only [rawResults,
      processPayment_live_congr src live1 live2 fpow desired_return ic pc today p h, ih]

/-- C5 (amended): an unresolvable live quote is never fatal; the
substitution of 1.0 happens inside get_current_exchange_rate itself, so
calculate_returns under an always-failing live source behaves exactly as
under a live source quoting 1, with no caller-supplied policy involved. -/
theorem live_failure_substitutes_one (src : HistSource) (fpow : PowFn)
    (payments : List Payment) (desired_return : ℚ) (ic pc : Ccy) (today : ℤ)
    (f t : Ccy) :
    get_current_exchange_rate (fun _ _ => none) f t = 1 ∧
    calculate_returns src (fun _ _ => none) fpow payments desired_return ic pc today =
      calculate_returns src (fun _ _ => some 1) fpow payments desired_return ic pc
        today := by
  refine ⟨get_current_exchange_rate_none f t, ?_⟩
  unfold calculate_returns
  by_cases hp : payments = []
  · simp [hp]
  · simp only [if_neg hp]
    rw [rawResults_live_congr src (fun _ _ => none) (fun _ _ => some 1) fpow desired_return
      ic pc today ((get_current_exchange_rate_none pc ic).trans
        (get_current_exchange_rate_one pc ic).symm)]

/-- C5 counterexample: with an always-failing live source and no
substitution policy anywhere in scope, calculate_returns still succeeds for
a USD-into-EUR payment (the claimed fatality does not occur). -/
theorem live_failure_not_fatal_cex :
    ((calculate_returns cHist (fun _ _ => none) cPow0 [cPay] 8 Ccy.USD Ccy.EUR
        0).2.toOption.isSome = true) ∧
    get_current_exchange_rate (fun _ _ => none) Ccy.EUR Ccy.USD = 1 := by
  exact ⟨by decide, by decide⟩

instance : IsTotal Payment (fun a b => a.date ≤ b.date) :=
  ⟨fun a b => le_total a.date b.date⟩

instance : IsTrans Payment (fun a b => a.date ≤ b.date) :=
  ⟨fun _ _ _ h1 h2 => le_trans h1 h2⟩

/-- C10: for a non-empty input, the payments list the caller holds after
calculate_returns (first component of the state-passing model) is its own
elements reordered ascending by date: a permutation of the input, sorted,
with every record preserved. -/
theorem calculate_returns_sorts_in_place (src : HistSource) (live : LiveSource)
    (fpow : PowFn) (payments : List Payment) (desired_return : ℚ) (ic pc : Ccy)
    (today : ℤ) (h : payments ≠ []) :
    (calculate_returns src live fpow payments desired_return ic pc today).1 =
      sortPayments payments ∧
    ((calculate_returns src live fpow payments desired_return ic pc today).1).Perm
      payments ∧
    List.Sorted (fun a b : Payment => a.date ≤ b.date)
      (calculate_returns src live fpow payments desired_return ic pc today).1 ∧
    ∀ p, p ∈ (calculate_returns src live fpow payments desired_return ic pc today).1 ↔
      p ∈ payments := by
  have h1 : (calculate_returns src live fpow payments desired_return ic pc today).1 =
      sortPayments payments := by
    simp only [calculate_returns, if_neg h]
    cases rawResults src live fpow desired_return ic pc today (sortPayments payments) <;>
      rfl
  refine ⟨h1, ?_, ?_, ?_⟩
  · rw [h1]
    exact List.perm_insertionSort _ _
  · rw [h1]
    exact List.sorted_insertionSort _ _
  · intro p
    rw [h1]
    exact (List.perm_insertionSort _ _).mem_iff

/-- C10 witness: a two-payment list in descending order comes back
ascending. -/
theorem calculate_returns_sorts_in_place_witness :
    cPays2 ≠ [] ∧
    (calculate_returns cHist cLive cPow0 cPays2 8 Ccy.USD Ccy.EUR 0).1 =
      sortPayments cPays2 ∧
    (calculate_returns cHist cLive cPow0 cPays2 8 Ccy.USD Ccy.EUR 0).1 =
      [⟨3, 7, some Ccy.USD⟩, ⟨10, 5, some Ccy.USD⟩] := by
  have h := calculate_returns_sorts_in_place cHist cLive cPow0 cPays2 8 Ccy.USD Ccy.EUR 0
    (by decide)
  exact ⟨by decide, h.1, by decide⟩

/-- C3 (amended): for a payment dated strictly after "now" the computed
years value is negative, the compounding branch is skipped, so the
property-currency future value equals the property-currency principal, the
pure future value equals the investment-currency principal and both
reported interest figures are zero; but the investment-currency future
value is the property-currency principal converted at the live rate (not
the investment-currency principal), and the years reported in the result is
the rounded raw negative value, not zero. -/
theorem future_dated_payment_values (src : HistSource) (live : LiveSource) (fpow : PowFn)
    (desired_return : ℚ) (ic pc : Ccy) (today : ℤ) (p : Payment) (r : RawResult)
    (hfut : today < p.date)
    (hok : processPayment src live fpow desired_return ic pc today p = .ok r) :
    r.years = ((today - p.date : ℤ) : ℚ) / (365.25 : ℚ) ∧ r.years < 0 ∧
    r.future_value_property_currency = r.amount_in_property_currency ∧
    r.pure_future_value = r.amount_in_investment_currency ∧
    r.pure_interest_earned_investment_currency = 0 ∧
    r.pure_interest_earned_property_currency = 0 ∧
    r.future_value_investment_currency =
      r.amount_in_property_currency * get_current_exchange_rate live pc ic ∧
    (roundedOf r).years = pyRound 2 (((today - p.date : ℤ) : ℚ) / (365.25 : ℚ)) := by
  have hy : (((today - p.date : ℤ) : ℚ) / (365.25 : ℚ)) < 0 := by
    apply div_neg_of_neg_of_pos
    · exact_mod_cast sub_neg.mpr hfut
    · norm_num
  have hny : ¬ (0 < ((today - p.date : ℤ) : ℚ) / (365.25 : ℚ)) := not_lt.mpr hy.le
  unfold processPayment at hok
  split at hok
  · exact absurd hok (by simp)
  · split at hok
    · exact absurd hok (by simp)
    · rw [Except.ok.injEq] at hok
      subst hok
      refine ⟨rfl, hy, ?_, ?_, ?_, ?_, ?_, rfl⟩ <;> simp only [if_neg hny, zero_mul]

/-- The concrete historical source resolves USD to EUR on day 1461 at rate
2 (the sample on day 1461 is the nearest in the requested window). -/
lemma cHist_rate : get_exchange_rate cHist 1461 Ccy.USD Ccy.EUR = .ok 2 := by
  have hf : fetch_historical_exchange_rate cHist Ccy.USD Ccy.EUR 1461 = some 2 := by
    norm_num [fetch_historical_exchange_rate, selectClosest, closestFold, dayDiff,
      cHist] <;> decide
  norm_num [get_exchange_rate, hf] <;> decide

/-- The concrete live source resolves EUR to USD at 1. -/
lemma cLive_rate : get_current_exchange_rate cLive Ccy.EUR Ccy.USD = 1 := by
  norm_num [get_current_exchange_rate, fetch_live_exchange_rate, pythonOr, cLive] <;>
    decide

/-- The loop values computed for the future-dated payment cPay. -/
lemma processPayment_cPay :
    processPayment cHist cLive cPow0 8 Ccy.USD Ccy.EUR 0 cPay = .ok cRawFut := by
  have h1 : convertToInvestment cHist Ccy.USD ⟨1461, 100, some Ccy.USD⟩ = .ok 100 := by
    norm_num [convertToInvestment]
  have h2 :
      convertToProperty cHist Ccy.USD Ccy.EUR ⟨1461, 100, some Ccy.USD⟩ 100 =
        .ok (200, 2) := by
    norm_num [convertToProperty, cHist_rate, Except.map] <;> decide
  norm_num [processPayment, cPay, h1, h2, cLive_rate, cPow0, cRawFut] <;> decide

/-- C3 counterexample: for a USD payment into a EUR property dated four
years in the future (historical rate 2, live rate 1), the reported years is
-4 (not 0) and the investment-currency future value is 200 while the
investment-currency principal is 100. -/
theorem future_dated_years_not_clamped_cex :
    ((calculate_returns cHist cLive cPow0 [cPay] 8 Ccy.USD Ccy.EUR 0).2.toOption.map
      (fun out => (out.results.map (fun r => r.years),
        out.results.map (fun r => r.future_value_investment_currency),
        out.results.map (fun r => r.amount_in_investment_currency)))) =
      some ([-4], [200], [100]) ∧
    ¬((-4 : ℚ) = 0) ∧ ¬((200 : ℚ) = 100) := by
  refine ⟨?_, by norm_num, by norm_num⟩
  have hsort : sortPayments [cPay] = [cPay] := rfl
  have hraw : rawResults cHist cLive cPow0 8 Ccy.USD Ccy.EUR 0 [cPay] =
      .ok [cRawFut] := by
    simp [rawResults, processPayment_cPay]
  norm_num [calculate_returns, hsort, hraw, Except.toOption, roundedOf, pyRound,
    roundHalfEven, cRawFut]

/-- C3 witness: the amended statement at the concrete future-dated
payment. -/
theorem future_dated_payment_values_witness :
    ((0 : ℤ) < (1461 : ℤ)) ∧
    processPayment cHist cLive cPow0 8 Ccy.USD Ccy.EUR 0 cPay = .ok cRawFut ∧
    cRawFut.years < 0 ∧
    cRawFut.future_value_property_currency = cRawFut.amount_in_property_currency ∧
    cRawFut.pure_interest_earned_investment_currency = 0 := by
  have h := future_dated_payment_values cHist cLive cPow0 8 Ccy.USD Ccy.EUR 0 cPay cRawFut
    (by decide) processPayment_cPay
  exact ⟨by decide, processPayment_cPay, h.2.1, h.2.2.1, h.2.2.2.2.1⟩

/-- C4 (amended): per-payment monetary fields are rounded to 2 decimal
places and the rate to 4; the invested and future-value totals accumulate
the unrounded per-payment values, but total pure interest, total currency
impact and the weighted-average holding period (the inputs of pure and
time-weighted ROI) accumulate the rounded per-payment values, because the
second loop iterates over the rounded results list. -/
theorem summary_accumulation_sources (fpow : PowFn) (raws : List RawResult) :
    (mkSummary fpow raws).total_invested_investment_currency =
      (raws.map (fun r => r.amount_in_investment_currency)).sum ∧
    (mkSummary fpow raws).total_invested_property_currency =
      (raws.map (fun r => r.amount_in_property_currency)).sum ∧
    (mkSummary fpow raws).total_future_value_investment_currency =
      (raws.map (fun r => r.future_value_investment_currency)).sum ∧
    (mkSummary fpow raws).total_future_value_property_currency =
      (raws.map (fun r => r.future_value_property_currency)).sum ∧
    (mkSummary fpow raws).total_pure_interest =
      (raws.map (fun r => pyRound 2 r.pure_interest_earned_investment_currency)).sum ∧
    (mkSummary fpow raws).total_currency_impact =
      (raws.map (fun r => pyRound 2 r.currency_impact)).sum ∧
    (mkSummary fpow raws).average_investment_time =
      (if 0 < (raws.map (fun r => pyRound 2 r.amount_in_investment_currency)).sum then
        (raws.map (fun r =>
          pyRound 2 r.amount_in_investment_currency * pyRound 2 r.years)).sum /
          (raws.map (fun r => pyRound 2 r.amount_in_investment_currency)).sum
      else 0) ∧
    (∀ r : RawResult,
      (roundedOf r).amount_in_investment_currency =
        pyRound 2 r.amount_in_investment_currency ∧
      (roundedOf r).investment_date_rate = pyRound 4 r.investment_date_rate ∧
      (roundedOf r).years = pyRound 2 r.years ∧
      (roundedOf r).future_value_investment_currency =
        pyRound 2 r.future_value_investment_currency ∧
      (roundedOf r).pure_interest_earned_investment_currency =
        pyRound 2 r.pure_interest_earned_investment_currency ∧
      (roundedOf r).currency_impact = pyRound 2 r.currency_impact) := by
  refine ⟨rfl, rfl, rfl, rfl, ?_, ?_, ?_, fun r => ⟨rfl, rfl, rfl, rfl, rfl, rfl⟩⟩ <;>
    simp only [mkSummary, List.map_map] <;> rfl

/-- The loop values computed for the past-dated payment cPay0 under the
cPow1 growth model. -/
lemma processPayment_cPay0 :
    processPayment cHist cLive cPow1 8 Ccy.USD Ccy.USD 1461 cPay0 = .ok cRawPast := by
  have h1 : convertToInvestment cHist Ccy.USD ⟨0, 1, some Ccy.USD⟩ = .ok 1 := by
    norm_num [convertToInvestment]
  have h2 : convertToProperty cHist Ccy.USD Ccy.USD ⟨0, 1, some Ccy.USD⟩ 1 =
      .ok (1, 1) := by
    norm_num [convertToProperty]
  have h3 : get_current_exchange_rate cLive Ccy.USD Ccy.USD = 1 := by
    norm_num [get_current_exchange_rate]
  norm_num [processPayment, cPay0, h1, h2, h3, cPow1, cRawPast] <;> decide

/-- C4 counterexample: a single payment whose unrounded pure interest is
0.001 produces a summary total pure interest of 0 (the sum of the rounded
values), not the 0.001 the sum of unrounded values would give. -/
theorem summary_uses_rounded_values_cex :
    rawResults cHist cLive cPow1 8 Ccy.USD Ccy.USD 1461 [cPay0] = .ok [cRawPast] ∧
    ((calculate_returns cHist cLive cPow1 [cPay0] 8 Ccy.USD Ccy.USD 1461).2.toOption.map
      (fun o => o.summary.total_pure_interest)) = some 0 ∧
    ([cRawPast].map (fun r => r.pure_interest_earned_investment_currency)).sum =
      1 / 1000 ∧
    ¬((0 : ℚ) = 1 / 1000) := by
  have hraw : rawResults cHist cLive cPow1 8 Ccy.USD Ccy.USD 1461 [cPay0] =
      .ok [cRawPast] := by
    simp [rawResults, processPayment_cPay0]
  refine ⟨hraw, ?_, by norm_num [cRawPast], by norm_num⟩
  have hsort : sortPayments [cPay0] = [cPay0] := rfl
  norm_num [calculate_returns, hsort, hraw, Except.toOption, mkSummary, roundedOf,
    pyRound, roundHalfEven, cRawPast]

/-- The first historical lookup of the loop (payment currency into
investment currency) is needed and unresolvable after both windows. -/
def firstLookupFails (src : HistSource) (investment_currency : Ccy) (p : Payment) : Prop :=
  p.amount_currency.getD investment_currency ≠ investment_currency ∧
  fetch_historical_exchange_rate src (p.amount_currency.getD investment_currency)
    investment_currency p.date = none

/-- The second historical lookup (investment currency into property
currency) is needed and unresolvable after both windows. -/
def secondLookupFails (src : HistSource) (investment_currency property_currency : Ccy)
    (p : Payment) : Prop :=
  p.amount_currency.getD investment_currency ≠ property_currency ∧
  fetch_historical_exchange_rate src investment_currency property_currency p.date = none

/-- Resolving the historical rates for a payment fails: either its first
lookup fails, or the first succeeds (or is skipped) and the second
fails. -/
def paymentRateFails (src : HistSource) (investment_currency property_currency : Ccy)
    (p : Payment) : Prop :=
  firstLookupFails src investment_currency p ∨
    (¬ firstLookupFails src investment_currency p ∧
      secondLookupFails src investment_currency property_currency p)

/-- A failing first lookup raises with the payment currency pair and
date. -/
lemma convertToInvestment_error (src : HistSource) (ic : Ccy) (p : Payment)
    (h : firstLookupFails src ic p) :
    convertToInvestment src ic p = .error ⟨p.amount_currency.getD ic, ic, p.date⟩ := by
  obtain ⟨hne, hnone⟩ := h
  simp only [convertToInvestment]
  rw [if_pos hne]
  simp only [get_exchange_rate]
  rw [if_neg hne, hnone]
  rfl

/-- When the first lookup does not fail, the first conversion succeeds. -/
lemma convertToInvestment_ok (src : HistSource) (ic : Ccy) (p : Payment)
    (h : ¬ firstLookupFails src ic p) :
    ∃ a, convertToInvestment src ic p = .ok a := by
  by_cases hne : p.amount_currency.getD ic = ic
  · refine ⟨p.amount, ?_⟩
    simp only [convertToInvestment]
    rw [if_neg (not_not_intro hne)]
  · have hnn : fetch_historical_exchange_rate src (p.amount_currency.getD ic) ic
        p.date ≠ none := fun hno => h ⟨hne, hno⟩
    obtain ⟨r, hr⟩ := Option.ne_none_iff_exists'.mp hnn
    refine ⟨p.amount * r, ?_⟩
    simp only [convertToInvestment]
    rw [if_pos hne]
    simp only [get_exchange_rate]
    rw [if_neg hne, hr]
    rfl

/-- A failing second lookup raises with the investment and property pair
and date. -/
lemma convertToProperty_error (src : HistSource) (ic pc : Ccy) (p : Payment) (a : ℚ)
    (h : secondLookupFails src ic pc p) :
    convertToProperty src ic pc p a = .error ⟨ic, pc, p.date⟩ := by
  obtain ⟨hne, hnone⟩ := h
  have hicpc : ic ≠ pc := by
    intro hh
    rw [hh] at hnone
    simp [fetch_historical_exchange_rate] at hnone
  simp only [convertToProperty]
  rw [if_neg hne]
  simp only [get_exchange_rate]
  rw [if_neg hicpc, hnone]
  rfl

/-- When the second lookup does not fail, the second conversion
succeeds. -/
lemma convertToProperty_ok (src : HistSource) (ic pc : Ccy) (p : Payment) (a : ℚ)
    (h : ¬ secondLookupFails src ic pc p) :
    ∃ b, convertToProperty src ic pc p a = .ok b := by
  by_cases hne : p.amount_currency.getD ic = pc
  · refine ⟨(p.amount, 1), ?_⟩
    simp only [convertToProperty]
    rw [if_pos hne]
  · by_cases hic : ic = pc
    · refine ⟨(a * 1, 1), ?_⟩
      simp only [convertToProperty]
      rw [if_neg hne]
      simp only [get_exchange_rate]
      rw [if_pos hic]
      rfl
    · have hnn : fetch_historical_exchange_rate src ic pc p.date ≠ none :=
        fun hno => h ⟨hne, hno⟩
      obtain ⟨r, hr⟩ := Option.ne_none_iff_exists'.mp hnn
      refine ⟨(a * r, r), ?_⟩
      simp only [convertToProperty]
      rw [if_neg hne]
      simp only [get_exchange_rate]
      rw [if_neg hic, hr]
      rfl

/-- processPayment raises exactly when one of the two conversions raises,
with that conversion's error; the live source and the power model play no
part in it. -/
lemma processPayment_error_iff (src : HistSource) (live : LiveSource) (fpow : PowFn)
    (desired_return : ℚ) (ic pc : Ccy) (today : ℤ) (p : Payment) (e : RateError) :
    processPayment src live fpow desired_return ic pc today p = .error e ↔
      (convertToInvestment src ic p = .error e ∨
       ∃ a, convertToInvestment src ic p = .ok a ∧
         convertToProperty src ic pc p a = .error e) := by
  constructor
  · intro h
    unfold processPayment at h
    split at h
    · injection h with h1
      subst h1
      exact Or.inl (by assumption)
    · split at h
      · injection h with h1
        subst h1
        refine Or.inr ⟨_, by assumption, by assumption⟩
      · exact absurd h (by simp)
  · rintro (h | ⟨a, ha, hb⟩)
    · simp only [processPayment, h]
    · simp only [processPayment, ha, hb]

/-- The loop aborts with the error of a failing payment whenever some
payment of the list fails to resolve. -/
lemma rawResults_error_of_fails (src : HistSource) (live : LiveSource) (fpow : PowFn)
    (desired_return : ℚ) (ic pc : Ccy) (today : ℤ) (l : List Payment)
    (h : ∃ p ∈ l, paymentRateFails src ic pc p) :
    ∃ e : RateError, rawResults src live fpow desired_return ic pc today l = .error e ∧
      ∃ p ∈ l,
        ((e = ⟨p.amount_currency.getD ic, ic, p.date⟩ ∧ firstLookupFails src ic p) ∨
         (e = ⟨ic, pc, p.date⟩ ∧ secondLookupFails src ic pc p)) := by
  induction l with
  | nil =>
    obtain ⟨p, hp, -⟩ := h
    exact absurd hp (List.not_mem_nil p)
  | cons q rest ih =>
    obtain ⟨p, hp, hfails⟩ := h
    by_cases hq : paymentRateFails src ic pc q
    · have he : ∃ e : RateError,
          processPayment src live fpow desired_return ic pc today q = .error e ∧
          ((e = ⟨q.amount_currency.getD ic, ic, q.date⟩ ∧ firstLookupFails src ic q) ∨
           (e = ⟨ic, pc, q.date⟩ ∧ secondLookupFails src ic pc q)) := by
        rcases hq with h1 | ⟨hn1, h2⟩
        · exact ⟨⟨q.amount_currency.getD ic, ic, q.date⟩,
            (processPayment_error_iff src live fpow desired_return ic pc today q _).mpr
              (Or.inl (convertToInvestment_error src ic q h1)), Or.inl ⟨rfl, h1⟩⟩
        · obtain ⟨a, ha⟩ := convertToInvestment_ok src ic q hn1
          exact ⟨⟨ic, pc, q.date⟩,
            (processPayment_error_iff src live fpow desired_return ic pc today q _).mpr
              (Or.inr ⟨a, ha, convertToProperty_error src ic pc q a h2⟩),
            Or.inr ⟨rfl, h2⟩⟩
      obtain ⟨e, he1, hid⟩ := he
      refine ⟨e, ?_, q, List.mem_cons_self q rest, hid⟩
      simp only [rawResults, he1]
    · have hn1 : ¬ firstLookupFails src ic q := fun h1 => hq (Or.inl h1)
      have hn2 : ¬ secondLookupFails src ic pc q := fun h2 => hq (Or.inr ⟨hn1, h2⟩)
      obtain ⟨a, ha⟩ := convertToInvestment_ok src ic q hn1
      obtain ⟨b, hb⟩ := convertToProperty_ok src ic pc q a hn2
      obtain ⟨b1, b2⟩ := b
      have hprest : ∃ p ∈ rest, paymentRateFails src ic pc p := by
        rcases List.mem_cons.mp hp with rfl | hmem
        · exact absurd hfails hq
        · exact ⟨p, hmem, hfails⟩
      obtain ⟨e, he, p2, hp2, hid2⟩ := ih hprest
      refine ⟨e, ?_, p2, List.mem_cons_of_mem q hp2, hid2⟩
      simp only [rawResults, processPayment, ha, hb, he]

/-- An abort of the loop does not depend on the live source or the power
model. -/
lemma rawResults_error_indep (src : HistSource) (live live2 : LiveSource)
    (fpow fpow2 : PowFn) (desired_return : ℚ) (ic pc : Ccy) (today : ℤ)
    (l : List Payment) :
    ∀ e : RateError,
      rawResults src live fpow desired_return ic pc today l = .error e →
      rawResults src live2 fpow2 desired_return ic pc today l = .error e := by
  induction l with
  | nil =>
    intro e h
    exact absurd h (by simp [rawResults])
  | cons q rest ih =>
    intro e h
    rw [rawResults] at h ⊢
    cases h1 : processPayment src live fpow desired_return ic pc today q with
    | error e1 =>
      rw [h1] at h
      have h1b : processPayment src live2 fpow2 desired_return ic pc today q =
          .error e1 :=
        (processPayment_error_iff src live2 fpow2 desired_return ic pc today q e1).mpr
          ((processPayment_error_iff src live fpow desired_return ic pc today q e1).mp h1)
      rw [h1b]
      exact h
    | ok r =>
      rw [h1] at h
      obtain ⟨r2, hr2⟩ :
          ∃ r2, processPayment src live2 fpow2 desired_return ic pc today q = .ok r2 := by
        cases hx : processPayment src live2 fpow2 desired_return ic pc today q with
        | error e3 =>
          have hx2 := (processPayment_error_iff src live fpow desired_return ic pc
            today q e3).mpr
            ((processPayment_error_iff src live2 fpow2 desired_return ic pc
              today q e3).mp hx)
          rw [h1] at hx2
          exact absurd hx2 (by simp)
        | ok r2 => exact ⟨r2, rfl⟩
      rw [hr2]
      cases h2 : rawResults src live fpow desired_return ic pc today rest with
      | error e2 =>
        rw [h2] at h
        rw [ih e2 h2]
        exact h
      | ok rs =>
        rw [h2] at h
        exact absurd h (by simp)

/-- C1: if resolving the historical rate fails for some payment, the whole
batch aborts with a RateUnavailable error (no per-payment results at all),
the error names the offending payment's date and the unresolvable currency
pair, and the outcome is the same under every live source and power model
(the resolver never substitutes a live rate for a historical request). -/
theorem calculate_returns_aborts_on_rate_failure (src : HistSource) (live : LiveSource)
    (fpow : PowFn) (payments : List Payment) (desired_return : ℚ) (ic pc : Ccy)
    (today : ℤ) (h : ∃ p ∈ payments, paymentRateFails src ic pc p) :
    ∃ e : RateError,
      (∀ (live2 : LiveSource) (fpow2 : PowFn),
        (calculate_returns src live2 fpow2 payments desired_return ic pc today).2 =
          .error (.rateUnavailable e)) ∧
      ∃ p ∈ payments,
        ((e = ⟨p.amount_currency.getD ic, ic, p.date⟩ ∧ firstLookupFails src ic p) ∨
         (e = ⟨ic, pc, p.date⟩ ∧ secondLookupFails src ic pc p)) := by
  obtain ⟨p0, hp0, hf0⟩ := h
  have hne : payments ≠ [] := List.ne_nil_of_mem hp0
  have hsorted : ∃ p ∈ sortPayments payments, paymentRateFails src ic pc p :=
    ⟨p0, (List.perm_insertionSort _ payments).mem_iff.mpr hp0, hf0⟩
  obtain ⟨e, he, p1, hp1, hid⟩ := rawResults_error_of_fails src live fpow desired_return
    ic pc today (sortPayments payments) hsorted
  refine ⟨e, ?_, p1, (List.perm_insertionSort _ payments).mem_iff.mp hp1, hid⟩
  intro live2 fpow2
  have he2 := rawResults_error_indep src live live2 fpow fpow2 desired_return ic pc
    today (sortPayments payments) e he
  simp only [calculate_returns, if_neg hne, he2]

/-- C1 witness: a EUR payment with an empty historical source aborts the
batch with a RateUnavailable error. -/
theorem calculate_returns_aborts_on_rate_failure_witness :
    paymentRateFails cHistEmpty Ccy.USD Ccy.EUR cPayF ∧
    ∃ e : RateError,
      (calculate_returns cHistEmpty cLive cPow0 [cPayF] 8 Ccy.USD Ccy.EUR 0).2 =
        .error (.rateUnavailable e) := by
  have hfail : paymentRateFails cHistEmpty Ccy.USD Ccy.EUR cPayF :=
    Or.inl ⟨by decide, rfl⟩
  obtain ⟨e, hall, -⟩ := calculate_returns_aborts_on_rate_failure cHistEmpty cLive cPow0
    [cPayF] 8 Ccy.USD Ccy.EUR 0 ⟨cPayF, by simp, hfail⟩
  exact ⟨hfail, e, hall cLive cPow0⟩

/-- The selection loop started at a best sample earlier than every
remaining sample returns a sample of minimal day distance, and on equal
distance the earliest date wins (the loop only replaces on strictly smaller
distance, so in a chronologically sorted series the first minimum
persists). -/
lemma closestFold_spec (target : ℤ) (l : List (ℤ × ℚ)) :
    ∀ b : ℤ × ℚ,
      l.Pairwise (fun x y => x.1 < y.1) →
      (∀ x ∈ l, b.1 < x.1) →
      ∃ m, closestFold target (some b) l = some m ∧
        (m = b ∨ m ∈ l) ∧
        |m.1 - target| ≤ |b.1 - target| ∧
        (∀ x ∈ l, |m.1 - target| ≤ |x.1 - target|) ∧
        (|b.1 - target| = |m.1 - target| → m.1 ≤ b.1) ∧
        (∀ x ∈ l, |x.1 - target| = |m.1 - target| → m.1 ≤ x.1) := by
  induction l with
  | nil =>
    intro b _ _
    exact ⟨b, rfl, Or.inl rfl, le_refl _, fun x hx => absurd hx (List.not_mem_nil x),
      fun _ => le_refl _, fun x hx => absurd hx (List.not_mem_nil x)⟩
  | cons s rest ih =>
    intro b hp hb
    have hrest : rest.Pairwise (fun x y => x.1 < y.1) := (List.pairwise_cons.mp hp).2
    have hs_lt : ∀ x ∈ rest, s.1 < x.1 := (List.pairwise_cons.mp hp).1
    have hbs : b.1 < s.1 := hb s (List.mem_cons_self s rest)
    have hb_rest : ∀ x ∈ rest, b.1 < x.1 := fun x hx => hb x (List.mem_cons_of_mem s hx)
    by_cases hlt : dayDiff target s < dayDiff target b
    · obtain ⟨m, hm, hmem, hle_s, hall, htie_s, htie_all⟩ := ih s hrest hs_lt
      have heq : closestFold target (some b) (s :: rest) =
          closestFold target (some s) rest := by
        simp only [closestFold, if_pos hlt]
      refine ⟨m, heq.trans hm, ?_, hle_s.trans (le_of_lt hlt), ?_, ?_, ?_⟩
      · rcases hmem with rfl | hmm
        · exact Or.inr (List.mem_cons_self m rest)
        · exact Or.inr (List.mem_cons_of_mem s hmm)
      · intro x hx
        rcases List.mem_cons.mp hx with rfl | hxx
        · exact hle_s
        · exact hall x hxx
      · intro htie
        exact absurd htie (ne_of_gt (lt_of_le_of_lt hle_s hlt))
      · intro x hx htie
        rcases List.mem_cons.mp hx with rfl | hxx
        · exact htie_s htie
        · exact htie_all x hxx htie
    · have hge : dayDiff target b ≤ dayDiff target s := not_lt.mp hlt
      obtain ⟨m, hm, hmem, hle_b, hall, htie_b, htie_all⟩ := ih b hrest hb_rest
      have heq : closestFold target (some b) (s :: rest) =
          closestFold target (some b) rest := by
        simp only [closestFold, if_neg hlt]
      refine ⟨m, heq.trans hm, ?_, hle_b, ?_, htie_b, ?_⟩
      · rcases hmem with rfl | hmm
        · exact Or.inl rfl
        · exact Or.inr (List.mem_cons_of_mem s hmm)
      · intro x hx
        rcases List.mem_cons.mp hx with rfl | hxx
        · exact hle_b.trans hge
        · exact hall x hxx
      · intro x hx htie
        rcases List.mem_cons.mp hx with rfl | hxx
        · have hge2 : |b.1 - target| ≤ |x.1 - target| := hge
          rw [htie] at hge2
          exact (htie_b (le_antisymm hge2 hle_b)).trans (le_of_lt hbs)
        · exact htie_all x hxx htie

/-- Over a nonempty chronologically sorted window, the selection returns
the price of a sample with minimal absolute day distance to the target,
ties broken by the earliest date. -/
lemma selectClosest_spec (target : ℤ) (l : List (ℤ × ℚ)) (hne : l ≠ [])
    (hs : l.Pairwise (fun x y => x.1 < y.1)) :
    ∃ s ∈ l, selectClosest target l = some s.2 ∧
      (∀ x ∈ l, |s.1 - target| ≤ |x.1 - target|) ∧
      (∀ x ∈ l, |x.1 - target| = |s.1 - target| → s.1 ≤ x.1) := by
  cases l with
  | nil => exact absurd rfl hne
  | cons s0 rest =>
    have hrest : rest.Pairwise (fun x y => x.1 < y.1) := (List.pairwise_cons.mp hs).2
    have hlt : ∀ x ∈ rest, s0.1 < x.1 := (List.pairwise_cons.mp hs).1
    obtain ⟨m, hm, hmem, hle0, hall, htie0, htieall⟩ :=
      closestFold_spec target rest s0 hrest hlt
    refine ⟨m, ?_, ?_, ?_, ?_⟩
    · rcases hmem with rfl | hmm
      · exact List.mem_cons_self m rest
      · exact List.mem_cons_of_mem s0 hmm
    · simp only [selectClosest, closestFold]
      rw [hm]
      rfl
    · intro x hx
      rcases List.mem_cons.mp hx with rfl | hxx
      · exact hle0
      · exact hall x hxx
    · intro x hx htie
      rcases List.mem_cons.mp hx with rfl | hxx
      · exact htie0 htie
      · exact htieall x hxx htie

/-- C2: for distinct currencies the historical resolver selects, over the
plus/minus 5 day window the source returns, the data point of smallest
absolute day distance to the target (ties to the earliest date, given that
the source returns a chronologically sorted series); when that window is
empty it repeats the same selection over the plus/minus 30 day window (a
lone sample 12 days away is thus selected, not a failure); it fails only
when both windows are empty. -/
theorem fetch_historical_window_selection (src : HistSource) (f t : Ccy) (d : ℤ)
    (hft : f ≠ t)
    (h5 : (src f t (d - 5) (d + 5)).Pairwise (fun x y => x.1 < y.1))
    (h30 : (src f t (d - 30) (d + 30)).Pairwise (fun x y => x.1 < y.1)) :
    (src f t (d - 5) (d + 5) ≠ [] →
      ∃ s ∈ src f t (d - 5) (d + 5),
        fetch_historical_exchange_rate src f t d = some s.2 ∧
        (∀ x ∈ src f t (d - 5) (d + 5), |s.1 - d| ≤ |x.1 - d|) ∧
        (∀ x ∈ src f t (d - 5) (d + 5), |x.1 - d| = |s.1 - d| → s.1 ≤ x.1)) ∧
    (src f t (d - 5) (d + 5) = [] → src f t (d - 30) (d + 30) ≠ [] →
      ∃ s ∈ src f t (d - 30) (d + 30),
        fetch_historical_exchange_rate src f t d = some s.2 ∧
        (∀ x ∈ src f t (d - 30) (d + 30), |s.1 - d| ≤ |x.1 - d|) ∧
        (∀ x ∈ src f t (d - 30) (d + 30), |x.1 - d| = |s.1 - d| → s.1 ≤ x.1)) ∧
    (src f t (d - 5) (d + 5) = [] → src f t (d - 30) (d + 30) = [] →
      fetch_historical_exchange_rate src f t d = none) := by
  refine ⟨?_, ?_, ?_⟩
  · intro hne
    obtain ⟨s, hmem, hsel, hmin, htie⟩ := selectClosest_spec d _ hne h5
    refine ⟨s, hmem, ?_, hmin, htie⟩
    simp only [fetch_historical_exchange_rate]
    rw [if_neg hft, hsel]
  · intro h5nil hne
    obtain ⟨s, hmem, hsel, hmin, htie⟩ := selectClosest_spec d _ hne h30
    refine ⟨s, hmem, ?_, hmin, htie⟩
    simp only [fetch_historical_exchange_rate]
    rw [if_neg hft, h5nil]
    exact hsel
  · intro h5nil h30nil
    simp only [fetch_historical_exchange_rate]
    rw [if_neg hft, h5nil, h30nil]
    rfl

/-- C2 witness: a source with no data in the narrow window and one sample
12 days out in the wide window resolves to that sample's price. -/
theorem fetch_historical_window_selection_witness :
    Ccy.USD ≠ Ccy.EUR ∧
    csrc Ccy.USD Ccy.EUR (0 - 5) (0 + 5) = [] ∧
    csrc Ccy.USD Ccy.EUR (0 - 30) (0 + 30) ≠ [] ∧
    fetch_historical_exchange_rate csrc Ccy.USD Ccy.EUR 0 = some (5 / 4) := by
  have hft : Ccy.USD ≠ Ccy.EUR := by decide
  have h5nil : csrc Ccy.USD Ccy.EUR (0 - 5) (0 + 5) = [] := by norm_num [csrc]
  have h30 : csrc Ccy.USD Ccy.EUR (0 - 30) (0 + 30) = [(12, 5 / 4)] := by
    norm_num [csrc]
  have hp5 : (csrc Ccy.USD Ccy.EUR (0 - 5) (0 + 5)).Pairwise
      (fun x y : ℤ × ℚ => x.1 < y.1) := by
    rw [h5nil]
    exact List.Pairwise.nil
  have hp30 : (csrc Ccy.USD Ccy.EUR (0 - 30) (0 + 30)).Pairwise
      (fun x y : ℤ × ℚ => x.1 < y.1) := by
    rw [h30]
    simp
  have h30ne : csrc Ccy.USD Ccy.EUR (0 - 30) (0 + 30) ≠ [] := by
    rw [h30]
    simp
  obtain ⟨s, hmem, hsel, -, -⟩ :=
    (fetch_historical_window_selection csrc Ccy.USD Ccy.EUR 0 hft hp5 hp30).2.1
      h5nil h30ne
  rw [h30] at hmem
  have hseq : s = (12, 5 / 4) := List.mem_singleton.mp hmem
  subst hseq
  exact ⟨hft, h5nil, h30ne, hsel⟩

end PropInvest
